import Mathlib

/-!
Verification of the `ShapeDiameterFunction` engine
(`src/libslic3r/ShapeDiameterFunction.hpp`).

The repository ships only the interface header: the configuration records
(`RaysConfig`, `SampleConfig`, `Config`) with their member initializers and
inline predicate bodies are source code and are embedded verbatim below.
The algorithmic bodies (`calc_width`, `calc_widths`,
`create_fibonacci_sphere_samples`, `generate_support_points`,
`poisson_sphere_from_samples`, `subdivide`) are not part of the sources, so
they are modelled from the specification, as indicated in their doc
comments.  Machine floats are embedded as real numbers.
-/

open scoped Classical

noncomputable section

/-- Embedding of `Vec3f`: a 3D vector with real components. -/
structure Vec3 where
  x : ℝ
  y : ℝ
  z : ℝ

/-- Componentwise addition of vectors. -/
def vadd (a b : Vec3) : Vec3 := ⟨a.x + b.x, a.y + b.y, a.z + b.z⟩

/-- Componentwise subtraction of vectors. -/
def vsub (a b : Vec3) : Vec3 := ⟨a.x - b.x, a.y - b.y, a.z - b.z⟩

/-- Componentwise negation of a vector. -/
def vneg (a : Vec3) : Vec3 := ⟨-a.x, -a.y, -a.z⟩

/-- Scalar multiple of a vector. -/
def smul3 (c : ℝ) (a : Vec3) : Vec3 := ⟨c * a.x, c * a.y, c * a.z⟩

/-- Euclidean dot product. -/
def dot3 (a b : Vec3) : ℝ := a.x * b.x + a.y * b.y + a.z * b.z

/-- Cross product. -/
def cross3 (a b : Vec3) : Vec3 :=
  ⟨a.y * b.z - a.z * b.y, a.z * b.x - a.x * b.z, a.x * b.y - a.y * b.x⟩

/-- Euclidean norm. -/
def norm3 (a : Vec3) : ℝ := Real.sqrt (a.x ^ 2 + a.y ^ 2 + a.z ^ 2)

/-- Euclidean distance between two points. -/
def dist3 (a b : Vec3) : ℝ := norm3 (vsub a b)

/-- Midpoint of a segment. -/
def midpoint3 (a b : Vec3) : Vec3 :=
  ⟨(a.x + b.x) / 2, (a.y + b.y) / 2, (a.z + b.z) / 2⟩

/-- The zero vector. -/
def vzero : Vec3 := ⟨0, 0, 0⟩

/-- Embedding of `ShapeDiameterFunction::Direction`: a ray direction with an
importance weight. -/
structure Direction where
  dir : Vec3
  weight : ℝ

/-- The golden angle used by the Fibonacci spiral. -/
def golden_angle : ℝ := Real.pi * (3 - Real.sqrt 5)

/-- Modelled from the spec: the polar height (z coordinate) of the `i`-th
point of the Fibonacci spiral over the unit half sphere with `count`
samples. -/
def fib_z (count i : ℕ) : ℝ := 1 - (i : ℝ) / (count : ℝ)

/-- Modelled from the spec: the `i`-th direction of the Fibonacci spiral,
placed at polar height `fib_z count i` and azimuth `golden_angle * i`. -/
def fib_dir (count i : ℕ) : Vec3 :=
  ⟨Real.sqrt (1 - fib_z count i ^ 2) * Real.cos (golden_angle * i),
   Real.sqrt (1 - fib_z count i ^ 2) * Real.sin (golden_angle * i),
   fib_z count i⟩

/-- Modelled from the spec: the body of
`ShapeDiameterFunction::create_fibonacci_sphere_samples` is not among the
sources.  Following the spec it deterministically places `count` points on
the unit half sphere along the golden-ratio spiral, discards the points
whose polar angle exceeds the cone angle (given in degrees), and weights
each survivor by its cosine with the pole axis.  The `rng` stream stands
for any ambient randomness source available to the implementation; the
computation never consults it. -/
def create_fibonacci_sphere_samples_rng (rng : ℕ → ℝ) (angle : ℝ)
    (count : ℕ) : List Direction :=
  ((List.range count).filter fun i =>
      decide (Real.cos (angle * Real.pi / 180) ≤ fib_z count i)).map
    fun i => ⟨fib_dir count i, fib_z count i⟩

/-- Modelled from the spec: `create_fibonacci_sphere_samples(angle, count)`,
a pure function of the cone angle and the sample count. -/
def create_fibonacci_sphere_samples (angle : ℝ) (count : ℕ) :
    List Direction :=
  create_fibonacci_sphere_samples_rng (fun _ => 0) angle count

/-- Polar angle of a direction measured from the Z pole axis. -/
def polar_angle (v : Vec3) : ℝ := Real.arccos v.z

/-- Embedding of `ShapeDiameterFunction::RaysConfig` with the member
initializers of the header (the `normal_type` selector of `Config` lives in
an external enum and carries no numeric content, so it is not embedded). -/
structure RaysConfig where
  allowed_deviation : ℝ := 1.5
  allowed_angle : ℝ := -1
  dirs : List Direction := create_fibonacci_sphere_samples 120 60
  safe_move : ℝ := 1e-3
  normal_z_max : ℝ := 0.3

/-- Embedding of `RaysConfig::is_deviation_filtering`:
`return allowed_deviation > 0;`. -/
def RaysConfig.is_deviation_filtering (c : RaysConfig) : Prop :=
  c.allowed_deviation > 0

/-- Embedding of `RaysConfig::is_angle_filtering`:
`return allowed_angle > 0;`. -/
def RaysConfig.is_angle_filtering (c : RaysConfig) : Prop :=
  c.allowed_angle > 0

/-- Embedding of `RaysConfig::set_no_deviation_filtering`:
`allowed_deviation = -1.f;`. -/
def RaysConfig.set_no_deviation_filtering (c : RaysConfig) : RaysConfig :=
  { c with allowed_deviation := -1 }

/-- Embedding of `RaysConfig::set_no_angle_filtering`:
`allowed_angle = -1.f;`. -/
def RaysConfig.set_no_angle_filtering (c : RaysConfig) : RaysConfig :=
  { c with allowed_angle := -1 }

/-- A default-constructed `RaysConfig` (`RaysConfig() = default`). -/
def defaultRaysConfig : RaysConfig := {}

/-- Embedding of `ShapeDiameterFunction::SampleConfig` with the member
initializers of the header. -/
structure SampleConfig where
  min_width : ℝ := 0.1
  max_width : ℝ := 10
  min_radius : ℝ := 1.5
  max_radius : ℝ := 10
  normal_z_max : ℝ := 0.3
  multiplicator : ℝ := 6

/-- Embedding of `ShapeDiameterFunction::Config` with the member
initializers of the header. -/
structure Config where
  rays : RaysConfig := {}
  sample : SampleConfig := {}
  max_error : ℝ := 0.5
  min_length : ℝ := 0.5
  max_length : ℝ := 1

/-- A default-constructed `Config` (`Config() = default`). -/
def defaultConfig : Config := {}

/-- A `Config` whose width range is inverted (`min_width = 5 ≥ 1 =
max_width`), built exactly as C++ callers build it: default construction
followed by member assignment. -/
def badWidthConfig : Config := { sample := { min_width := 5, max_width := 1 } }

/-- A `Config` whose two `normal_z_max` fields violate the ordering the
header comment demands (`RaysConfig` value larger than the `SampleConfig`
one). -/
def badNormalConfig : Config :=
  { rays := { normal_z_max := 0.5 }, sample := { normal_z_max := 0.2 } }

/-- Result of a first-hit ray query: the hit distance and the normal of the
hit triangle (used by angle filtering). -/
structure Hit where
  distance : ℝ
  normal : Vec3

/-- Embedding of `ShapeDiameterFunction::AABBTree`, reduced to the one
operation the estimator uses: the black-box first-hit query of the spatial
index boundary. -/
structure AABBTree where
  firstHit : Vec3 → Vec3 → Option Hit

/-- The sentinel width returned when no usable ray hit remains ("e.g.,
zero", per the spec). -/
def undetermined_width : ℝ := 0

/-- Angle between two vectors. -/
def angle_between (u v : Vec3) : ℝ :=
  Real.arccos (dot3 u v / (norm3 u * norm3 v))

/-- Modelled from the spec: the rotation built by `calc_width` that maps the
pole axis of the direction set onto the inverse of the surface normal
(Rodrigues' formula; the degenerate opposite case falls back to a half-turn
around the x axis). -/
def rotate_to_opposite (normal d : Vec3) : Vec3 :=
  let t := vneg normal
  let a := cross3 ⟨0, 0, 1⟩ t
  if 1 + t.z = 0 then ⟨d.x, -d.y, -d.z⟩
  else
    vadd (vadd (smul3 t.z d) (cross3 a d)) (smul3 (dot3 a d / (1 + t.z)) a)

/-- Modelled from the spec: the body of `ShapeDiameterFunction::calc_width`
is not among the sources.  First stage: cast every weighted direction of the
config (rotated towards the inverse normal) from the surface point offset by
`safe_move` along the normal, and keep the `(distance, weight)` pairs of the
hits that survive angle filtering (a hit is discarded when angle filtering
is enabled and the angle between the cast direction and the hit triangle's
normal is below `π - allowed_angle`). -/
def ray_hits (point normal : Vec3) (tree : AABBTree) (cfg : RaysConfig) :
    List (ℝ × ℝ) :=
  cfg.dirs.filterMap fun d =>
    match tree.firstHit (vadd point (smul3 cfg.safe_move normal))
        (rotate_to_opposite normal d.dir) with
    | none => none
    | some h =>
        if cfg.is_angle_filtering ∧
            angle_between (rotate_to_opposite normal d.dir) h.normal <
              Real.pi - cfg.allowed_angle
        then none
        else some (h.distance, d.weight)

/-- Sum of the weights of a list of `(distance, weight)` pairs. -/
def weight_sum (hits : List (ℝ × ℝ)) : ℝ := (hits.map Prod.snd).sum

/-- Weighted average of the distances of a list of `(distance, weight)`
pairs. -/
def weighted_average (hits : List (ℝ × ℝ)) : ℝ :=
  (hits.map fun p => p.2 * p.1).sum / weight_sum hits

/-- Weighted standard deviation of the distances of a list of
`(distance, weight)` pairs. -/
def weighted_std (hits : List (ℝ × ℝ)) : ℝ :=
  Real.sqrt ((hits.map fun p => p.2 * (p.1 - weighted_average hits) ^ 2).sum /
    weight_sum hits)

/-- Modelled from the spec: second stage of `calc_width` — when deviation
filtering is enabled and at least two hits remain, drop every hit farther
than `allowed_deviation` weighted standard deviations from the weighted
mean. -/
def dev_filtered (cfg : RaysConfig) (hits : List (ℝ × ℝ)) : List (ℝ × ℝ) :=
  if cfg.is_deviation_filtering ∧ 2 ≤ hits.length then
    hits.filter fun p =>
      decide (|p.1 - weighted_average hits| ≤
        cfg.allowed_deviation * weighted_std hits)
  else hits

/-- Modelled from the spec: `ShapeDiameterFunction::calc_width` — return the
weighted average of the hit distances surviving both filters, or the
sentinel `undetermined_width` when none survives. -/
def calc_width (point normal : Vec3) (tree : AABBTree) (cfg : RaysConfig) :
    ℝ :=
  if dev_filtered cfg (ray_hits point normal tree cfg) = [] then
    undetermined_width
  else weighted_average (dev_filtered cfg (ray_hits point normal tree cfg))

/-- Modelled from the spec: `ShapeDiameterFunction::calc_widths` evaluates
`calc_width` independently for every `(point, normal)` pair. -/
def calc_widths (points normals : List Vec3) (tree : AABBTree)
    (cfg : RaysConfig) : List ℝ :=
  List.zipWith (fun p n => calc_width p n tree cfg) points normals

/-- One step of a scheduled (out-of-order) evaluation of `calc_widths`: the
width of index `i` is computed and stored; all other slots are kept. -/
def sched_step (points normals : List Vec3) (tree : AABBTree)
    (cfg : RaysConfig) (acc : ℕ → ℝ) (i : ℕ) : ℕ → ℝ :=
  fun j =>
    if j = i then
      calc_width (points.getD i vzero) (normals.getD i vzero) tree cfg
    else acc j

/-- Modelled from the spec: a scheduled evaluation of the concurrent
`calc_widths` — the individual `calc_width` calls are executed in the order
given by `sched` (an arbitrary interleaving of the indices), each storing
its result into its own slot. -/
def calc_widths_sched (sched : List ℕ) (points normals : List Vec3)
    (tree : AABBTree) (cfg : RaysConfig) : ℕ → ℝ :=
  sched.foldl (sched_step points normals tree cfg) fun _ => 0

/-- Embedding of `ShapeDiameterFunction::PointRadius`: a support-point
candidate with its own footprint radius. -/
structure PointRadius where
  point : Vec3
  radius : ℝ

/-- A mesh vertex as seen by the support-point generator: its position, its
vertex normal, and its share of the surface area (the mesh decoration the
generator derives from the triangle set). -/
structure VertexInfo where
  position : Vec3
  normal : Vec3
  area : ℝ

/-- Modelled from the spec: the width-to-radius mapping of the generator —
the estimated width is mapped linearly from `[min_width, max_width]` onto
`[min_radius, max_radius]` and clamped at both ends. -/
def width_to_radius (cfg : SampleConfig) (w : ℝ) : ℝ :=
  min cfg.max_radius (max cfg.min_radius
    (cfg.min_radius + (w - cfg.min_width) * (cfg.max_radius - cfg.min_radius) /
      (cfg.max_width - cfg.min_width)))

/-- Modelled from the spec: the number of random samples placed for one
vertex — `multiplicator` samples per unit area, scaled inversely with the
squared target radius. -/
def support_count (cfg : SampleConfig) (v : VertexInfo) (r : ℝ) : ℕ :=
  Nat.ceil (cfg.multiplicator * v.area / r ^ 2)

/-- Modelled from the spec: the samples one vertex contributes to
`generate_support_points`.  A vertex whose normal is within `normal_z_max`
of the up axis is skipped; otherwise the vertex's width is mapped to its
target radius and `support_count` random surface positions (drawn from the
caller-supplied random stream) are emitted, each inheriting that radius. -/
def vertex_samples (cfg : SampleConfig) (rng : ℕ → Vec3)
    (vw : VertexInfo × ℝ) : List PointRadius :=
  if cfg.normal_z_max < vw.1.normal.z then []
  else
    (List.range (support_count cfg vw.1 (width_to_radius cfg vw.2))).map
      fun k => ⟨rng k, width_to_radius cfg vw.2⟩

/-- Modelled from the spec: the body of
`ShapeDiameterFunction::generate_support_points` is not among the sources.
It walks the vertices (paired 1:1 with their estimated widths) and collects
the per-vertex samples. -/
def generate_support_points (vertices : List VertexInfo) (widths : List ℝ)
    (cfg : SampleConfig) (rng : ℕ → Vec3) : List PointRadius :=
  (vertices.zip widths).flatMap (vertex_samples cfg rng)

/-- Modelled from the spec: the conflict test of the Poisson thinner — a
previously accepted point `g` blocks the candidate `s` when the grid query
within `s`'s own radius returns it (their distance is at most `s.radius`)
and the radius sum exceeds their separation distance. -/
def conflicts (g s : PointRadius) : Prop :=
  dist3 g.point s.point ≤ s.radius ∧
  s.radius + g.radius > dist3 g.point s.point

/-- Modelled from the spec: the body of
`ShapeDiameterFunction::poisson_sphere_from_samples` is not among the
sources.  Samples are processed in order: a sample conflicting with a
previously accepted point (pre-existing grid points included) is rejected
and removed; otherwise it is accepted and inserted into the grid before the
next sample is tested.  The returned list is the surviving samples. -/
def poisson_sphere_from_samples : List PointRadius → List PointRadius →
    List PointRadius
  | _, [] => []
  | grid, s :: rest =>
      if ∃ g ∈ grid, conflicts g s then poisson_sphere_from_samples grid rest
      else s :: poisson_sphere_from_samples (s :: grid) rest

/-- A large-radius sample processed first by the thinner. -/
def c1sampleA : PointRadius := ⟨⟨0, 0, 0⟩, 3⟩

/-- A small-radius sample processed second, 2 units away from the first. -/
def c1sampleB : PointRadius := ⟨⟨2, 0, 0⟩, 1⟩

/-- A pre-existing grid point for the C1 witness. -/
def c1gridPoint : PointRadius := ⟨⟨0, 0, 0⟩, 1⟩

/-- A candidate accepted against that grid point (distance 5). -/
def c1accepted : PointRadius := ⟨⟨5, 0, 0⟩, 1⟩

/-- A triangle of the mesh, given by its three corner positions. -/
structure Tri where
  a : Vec3
  b : Vec3
  c : Vec3

/-- Length of the longest side of a triangle. -/
def maxSide (t : Tri) : ℝ :=
  max (dist3 t.a t.b) (max (dist3 t.b t.c) (dist3 t.c t.a))

/-- Modelled from the spec: one midpoint-split round — every edge of the
triangle is split at its midpoint, giving the three corner triangles and
the medial triangle (edge midpoints are shared between adjacent triangles,
so the splits propagate consistently and leave no cracks). -/
def split4 (t : Tri) : List Tri :=
  [⟨t.a, midpoint3 t.a t.b, midpoint3 t.c t.a⟩,
   ⟨midpoint3 t.a t.b, t.b, midpoint3 t.b t.c⟩,
   ⟨midpoint3 t.c t.a, midpoint3 t.b t.c, t.c⟩,
   ⟨midpoint3 t.a t.b, midpoint3 t.b t.c, midpoint3 t.c t.a⟩]

/-- Modelled from the spec: repeated midpoint splitting of one triangle,
with an explicit recursion bound (`fuel`); a triangle none of whose edges
exceeds the bound is returned as is. -/
def subTriAux (L : ℝ) : ℕ → Tri → List Tri
  | 0, t => [t]
  | f + 1, t =>
      if maxSide t ≤ L then [t]
      else (split4 t).flatMap (subTriAux L f)

/-- Modelled from the spec: subdivision of one triangle; the recursion
bound is large enough for the splitting to reach the state where no edge
exceeds `L` (each round halves the sides), so the recursion terminates with
all edges within the bound. -/
def subdivide_triangle (L : ℝ) (t : Tri) : List Tri :=
  subTriAux L (Nat.ceil (maxSide t / L)) t

/-- Modelled from the spec: the body of
`ShapeDiameterFunction::subdivide` is not among the sources.  Every
triangle with a side longer than `max_length` is repeatedly midpoint-split
until no edge exceeds the bound. -/
def subdivide (its : List Tri) (L : ℝ) : List Tri :=
  its.flatMap (subdivide_triangle L)

lemma fib_z_le_one (count i : ℕ) : fib_z count i ≤ 1 := by
  unfold fib_z
  have : 0 ≤ (i : ℝ) / (count : ℝ) := by positivity
  linarith

lemma fib_z_pos {count i : ℕ} (hi : i < count) : 0 < fib_z count i := by
  unfold fib_z
  have hc : (0 : ℝ) < count := by
    exact_mod_cast Nat.lt_of_le_of_lt (Nat.zero_le i) hi
  have : (i : ℝ) / (count : ℝ) < 1 := by
    rw [div_lt_one hc]
    exact_mod_cast hi
  linarith

lemma arccos_antitone {s t : ℝ} (h : s ≤ t) :
    Real.arccos t ≤ Real.arccos s := by
  rw [Real.arccos_eq_pi_div_two_sub_arcsin, Real.arccos_eq_pi_div_two_sub_arcsin]
  have := Real.monotone_arcsin h
  linarith

lemma fib_z_sq_le_one {count i : ℕ} (hi : i < count) :
    fib_z count i ^ 2 ≤ 1 := by
  have h1 := fib_z_le_one count i
  have h0 := (fib_z_pos hi).le
  nlinarith

lemma norm3_fib_dir {count i : ℕ} (hi : i < count) :
    norm3 (fib_dir count i) = 1 := by
  unfold norm3 fib_dir
  have h1 : (0 : ℝ) ≤ 1 - fib_z count i ^ 2 := by
    have := fib_z_sq_le_one hi
    linarith
  have hs : Real.sqrt (1 - fib_z count i ^ 2) ^ 2 = 1 - fib_z count i ^ 2 :=
    Real.sq_sqrt h1
  have ht := Real.sin_sq_add_cos_sq (golden_angle * i)
  have : (Real.sqrt (1 - fib_z count i ^ 2) * Real.cos (golden_angle * i)) ^ 2 +
      (Real.sqrt (1 - fib_z count i ^ 2) * Real.sin (golden_angle * i)) ^ 2 +
      fib_z count i ^ 2 = 1 := by
    nlinarith
  rw [this, Real.sqrt_one]

lemma mem_fibonacci_samples {angle : ℝ} {count : ℕ} {d : Direction}
    (hd : d ∈ create_fibonacci_sphere_samples angle count) :
    ∃ i, i < count ∧ Real.cos (angle * Real.pi / 180) ≤ fib_z count i ∧
      d = ⟨fib_dir count i, fib_z count i⟩ := by
  unfold create_fibonacci_sphere_samples create_fibonacci_sphere_samples_rng at hd
  rcases List.mem_map.mp hd with ⟨i, hi, hmap⟩
  rcases List.mem_filter.mp hi with ⟨hrange, hdec⟩
  refine ⟨i, List.mem_range.mp hrange, of_decide_eq_true hdec, hmap.symm⟩

/-- C5: every direction returned by `create_fibonacci_sphere_samples` for a
nonnegative cone angle and positive count is a unit vector whose polar angle
from the Z pole axis is at most the cone angle (converted to radians); its
weight is nonnegative and equals the cosine with the pole axis (its dot
product with the unit Z vector); and among returned directions a strictly
smaller polar angle means a strictly larger weight. -/
theorem fibonacci_cone_properties (angle : ℝ) (count : ℕ)
    (ha : 0 ≤ angle) (hcount : 0 < count) :
    (∀ d ∈ create_fibonacci_sphere_samples angle count,
        norm3 d.dir = 1 ∧
        polar_angle d.dir ≤ angle * Real.pi / 180 ∧
        0 ≤ d.weight ∧
        d.weight = dot3 d.dir ⟨0, 0, 1⟩) ∧
    (∀ d1 ∈ create_fibonacci_sphere_samples angle count,
      ∀ d2 ∈ create_fibonacci_sphere_samples angle count,
        polar_angle d1.dir < polar_angle d2.dir → d2.weight < d1.weight) := by
  constructor
  · intro d hd
    rcases mem_fibonacci_samples hd with ⟨i, hi, hcos, rfl⟩
    refine ⟨norm3_fib_dir hi, ?_, (fib_z_pos hi).le, ?_⟩
    · -- polar angle bound
      show Real.arccos (fib_z count i) ≤ angle * Real.pi / 180
      by_cases hpi : angle * Real.pi / 180 ≤ Real.pi
      · have h1 : Real.arccos (fib_z count i) ≤
            Real.arccos (Real.cos (angle * Real.pi / 180)) :=
          arccos_antitone hcos
        have h2 : Real.arccos (Real.cos (angle * Real.pi / 180)) =
            angle * Real.pi / 180 := by
          apply Real.arccos_cos
          · positivity
          · exact hpi
        linarith
      · have := Real.arccos_le_pi (fib_z count i)
        linarith [not_le.mp hpi]
    · show fib_z count i = dot3 (fib_dir count i) ⟨0, 0, 1⟩
      unfold dot3 fib_dir
      ring
  · intro d1 h1 d2 h2 hlt
    rcases mem_fibonacci_samples h1 with ⟨i, hi, _, rfl⟩
    rcases mem_fibonacci_samples h2 with ⟨j, hj, _, rfl⟩
    show fib_z count j < fib_z count i
    by_contra hcon
    push_neg at hcon
    have : Real.arccos (fib_z count j) ≤ Real.arccos (fib_z count i) :=
      arccos_antitone hcon
    exact absurd hlt (not_lt.mpr this)

/-- C5 witness: the cone properties instantiated at a 120 degree cone with
3 samples. -/
theorem fibonacci_cone_properties_witness :
    (0 : ℝ) ≤ 120 ∧ 0 < 3 ∧
    ((∀ d ∈ create_fibonacci_sphere_samples 120 3,
        norm3 d.dir = 1 ∧
        polar_angle d.dir ≤ 120 * Real.pi / 180 ∧
        0 ≤ d.weight ∧
        d.weight = dot3 d.dir ⟨0, 0, 1⟩) ∧
    (∀ d1 ∈ create_fibonacci_sphere_samples 120 3,
      ∀ d2 ∈ create_fibonacci_sphere_samples 120 3,
        polar_angle d1.dir < polar_angle d2.dir → d2.weight < d1.weight)) :=
  ⟨by norm_num, by norm_num,
    fibonacci_cone_properties 120 3 (by norm_num) (by norm_num)⟩

/-- C6: the direction sampler is deterministic.  Its result does not depend
on the ambient randomness stream, and two calls with identical arguments
give identical (member- and order-equal) results. -/
theorem fibonacci_sphere_deterministic (r1 r2 : ℕ → ℝ) (angle : ℝ)
    (count : ℕ) :
    create_fibonacci_sphere_samples_rng r1 angle count =
      create_fibonacci_sphere_samples_rng r2 angle count ∧
    create_fibonacci_sphere_samples_rng r1 angle count =
      create_fibonacci_sphere_samples angle count ∧
    create_fibonacci_sphere_samples angle count =
      create_fibonacci_sphere_samples angle count :=
  ⟨rfl, rfl, rfl⟩

/-- C9: the filtering predicates of `RaysConfig` hold exactly when the
corresponding threshold is strictly positive; the `set_no_*` mutators
disable them; a threshold of exactly `0` means the filtering is disabled;
and a default-constructed `RaysConfig` has deviation filtering enabled
(threshold `1.5`) but angle filtering disabled (threshold `-1`). -/
theorem raysConfig_filtering_flags (c : RaysConfig) :
    (c.is_deviation_filtering ↔ 0 < c.allowed_deviation) ∧
    (c.is_angle_filtering ↔ 0 < c.allowed_angle) ∧
    ¬ c.set_no_deviation_filtering.is_deviation_filtering ∧
    ¬ c.set_no_angle_filtering.is_angle_filtering ∧
    (c.allowed_deviation = 0 → ¬ c.is_deviation_filtering) ∧
    (c.allowed_angle = 0 → ¬ c.is_angle_filtering) ∧
    defaultRaysConfig.is_deviation_filtering ∧
    ¬ defaultRaysConfig.is_angle_filtering ∧
    defaultRaysConfig.allowed_deviation = 1.5 ∧
    defaultRaysConfig.allowed_angle = -1 := by
  refine ⟨Iff.rfl, Iff.rfl, ?_, ?_, ?_, ?_, ?_, ?_, rfl, rfl⟩
  · show ¬ ((-1 : ℝ) > 0)
    norm_num
  · show ¬ ((-1 : ℝ) > 0)
    norm_num
  · intro h
    show ¬ (c.allowed_deviation > 0)
    rw [h]
    norm_num
  · intro h
    show ¬ (c.allowed_angle > 0)
    rw [h]
    norm_num
  · show (1.5 : ℝ) > 0
    norm_num
  · show ¬ ((-1 : ℝ) > 0)
    norm_num

/-- C9 witness: a config whose deviation threshold is exactly `0` has
deviation filtering disabled, and likewise for the angle threshold. -/
theorem raysConfig_filtering_flags_witness :
    ({ allowed_deviation := 0, allowed_angle := 0 } : RaysConfig).allowed_deviation = 0 ∧
    ¬ ({ allowed_deviation := 0, allowed_angle := 0 } : RaysConfig).is_deviation_filtering ∧
    ¬ ({ allowed_deviation := 0, allowed_angle := 0 } : RaysConfig).is_angle_filtering :=
  ⟨rfl,
    (raysConfig_filtering_flags { allowed_deviation := 0, allowed_angle := 0 }).2.2.2.2.1 rfl,
    (raysConfig_filtering_flags { allowed_deviation := 0, allowed_angle := 0 }).2.2.2.2.2.1 rfl⟩

/-- C10: the default-constructed `Config` satisfies every cross-field
consistency constraint the stages assume: `rays.normal_z_max = 0.3` is at
most `sample.normal_z_max = 0.3`, `min_width = 0.1 < max_width = 10`,
`min_radius = 1.5 < max_radius = 10`, and
`min_length = 0.5 ≤ max_length = 1`. -/
theorem default_config_consistent :
    defaultConfig.rays.normal_z_max ≤ defaultConfig.sample.normal_z_max ∧
    defaultConfig.sample.min_width < defaultConfig.sample.max_width ∧
    defaultConfig.sample.min_radius < defaultConfig.sample.max_radius ∧
    defaultConfig.min_length ≤ defaultConfig.max_length ∧
    defaultConfig.rays.normal_z_max = 0.3 ∧
    defaultConfig.sample.normal_z_max = 0.3 ∧
    defaultConfig.sample.min_width = 0.1 ∧
    defaultConfig.sample.max_width = 10 ∧
    defaultConfig.sample.min_radius = 1.5 ∧
    defaultConfig.sample.max_radius = 10 ∧
    defaultConfig.min_length = 0.5 ∧
    defaultConfig.max_length = 1 := by
  refine ⟨?_, ?_, ?_, ?_, rfl, rfl, rfl, rfl, rfl, rfl, rfl, rfl⟩
  · show (0.3 : ℝ) ≤ 0.3
    norm_num
  · show (0.1 : ℝ) < 10
    norm_num
  · show (1.5 : ℝ) < 10
    norm_num
  · show (0.5 : ℝ) ≤ 1
    norm_num

/-- C4 counterexample: construction of a `Config` with inconsistent nested
fields does not fail — `badWidthConfig` is a successfully constructed
`Config` value with `min_width ≥ max_width`, so construction does not
succeed only for configurations satisfying the invariants. -/
theorem config_validation_counterexample :
    badWidthConfig.sample.max_width ≤ badWidthConfig.sample.min_width := by
  show (1 : ℝ) ≤ 5
  norm_num

/-- C4 amended: `Config` construction performs no validation.  Both a
config with an inverted width range and a config whose
`SampleConfig.normal_z_max` is smaller than `RaysConfig.normal_z_max` are
constructed without any error; the consistency requirements exist only as
header comments. -/
theorem config_construction_unvalidated :
    badWidthConfig.sample.min_width = 5 ∧
    badWidthConfig.sample.max_width = 1 ∧
    badWidthConfig.sample.max_width ≤ badWidthConfig.sample.min_width ∧
    badNormalConfig.rays.normal_z_max = 0.5 ∧
    badNormalConfig.sample.normal_z_max = 0.2 ∧
    badNormalConfig.sample.normal_z_max < badNormalConfig.rays.normal_z_max := by
  refine ⟨rfl, rfl, ?_, rfl, rfl, ?_⟩
  · show (1 : ℝ) ≤ 5
    norm_num
  · show (0.2 : ℝ) < 0.5
    norm_num

lemma dev_filtered_nil (cfg : RaysConfig) : dev_filtered cfg [] = [] := by
  unfold dev_filtered
  split
  · rfl
  · rfl

lemma ray_hits_of_no_hit {point normal : Vec3} {tree : AABBTree}
    (cfg : RaysConfig) (h : ∀ o d, tree.firstHit o d = none) :
    ray_hits point normal tree cfg = [] := by
  unfold ray_hits
  rw [List.filterMap_eq_nil_iff]
  intro d _
  rw [h]

/-- C2: if no cast ray produces a hit, `calc_width` returns the documented
"undetermined" sentinel; more generally whenever angle/deviation filtering
leaves no hit the sentinel is returned; and when hits remain the result is
their weighted average. -/
theorem calc_width_sentinel (point normal : Vec3) (tree : AABBTree)
    (cfg : RaysConfig) :
    ((∀ o d, tree.firstHit o d = none) →
        calc_width point normal tree cfg = undetermined_width) ∧
    (dev_filtered cfg (ray_hits point normal tree cfg) = [] →
        calc_width point normal tree cfg = undetermined_width) ∧
    (dev_filtered cfg (ray_hits point normal tree cfg) ≠ [] →
        calc_width point normal tree cfg =
          weighted_average (dev_filtered cfg (ray_hits point normal tree cfg))) := by
  refine ⟨?_, ?_, ?_⟩
  · intro h
    unfold calc_width
    rw [ray_hits_of_no_hit cfg h, dev_filtered_nil]
    simp
  · intro h
    unfold calc_width
    rw [if_pos h]
  · intro h
    unfold calc_width
    rw [if_neg h]

/-- C2 witness: over a spatial index against which every ray misses (the
infinite-plane scenario of the spec), `calc_width` at the origin returns the
sentinel. -/
theorem calc_width_sentinel_witness :
    calc_width vzero ⟨0, 0, 1⟩ ⟨fun _ _ => none⟩ {} = undetermined_width :=
  (calc_width_sentinel vzero ⟨0, 0, 1⟩ ⟨fun _ _ => none⟩ {}).1 fun _ _ => rfl

lemma sched_foldl_not_mem (points normals : List Vec3) (tree : AABBTree)
    (cfg : RaysConfig) :
    ∀ (sched : List ℕ) (acc : ℕ → ℝ) (i : ℕ), i ∉ sched →
      sched.foldl (sched_step points normals tree cfg) acc i = acc i := by
  intro sched
  induction sched with
  | nil => intro acc i _; rfl
  | cons j rest ih =>
      intro acc i hi
      have hij : i ≠ j := fun h => hi (h ▸ List.mem_cons_self j rest)
      have hrest : i ∉ rest := fun h => hi (List.mem_cons_of_mem j h)
      show rest.foldl (sched_step points normals tree cfg)
        (sched_step points normals tree cfg acc j) i = acc i
      rw [ih _ i hrest]
      unfold sched_step
      rw [if_neg hij]

lemma sched_foldl_mem (points normals : List Vec3) (tree : AABBTree)
    (cfg : RaysConfig) :
    ∀ (sched : List ℕ) (acc : ℕ → ℝ) (i : ℕ), i ∈ sched →
      sched.foldl (sched_step points normals tree cfg) acc i =
        calc_width (points.getD i vzero) (normals.getD i vzero) tree cfg := by
  intro sched
  induction sched with
  | nil => intro acc i hi; cases hi
  | cons j rest ih =>
      intro acc i hi
      show rest.foldl (sched_step points normals tree cfg)
        (sched_step points normals tree cfg acc j) i = _
      by_cases hr : i ∈ rest
      · exact ih _ i hr
      · have hij : i = j := by
          rcases List.mem_cons.mp hi with h | h
          · exact h
          · exact absurd h hr
        rw [sched_foldl_not_mem points normals tree cfg rest _ i hr]
        unfold sched_step
        rw [if_pos hij, hij]

lemma getD_zipWith {α β γ : Type} (f : α → β → γ) (a0 : α) (b0 : β)
    (c0 : γ) :
    ∀ (as : List α) (bs : List β) (i : ℕ), as.length = bs.length →
      i < as.length →
      (List.zipWith f as bs).getD i c0 = f (as.getD i a0) (bs.getD i b0) := by
  intro as
  induction as with
  | nil => intro bs i _ hi; cases hi
  | cons a as ih =>
      intro bs i hlen hi
      cases bs with
      | nil => cases hlen
      | cons b bs =>
          cases i with
          | zero => rfl
          | succ i =>
              have hlen' : as.length = bs.length := by
                simpa using hlen
              have hi' : i < as.length := by
                simpa using hi
              simpa using ih bs i hlen' hi'

/-- C3: for equal-length inputs, `calc_widths` returns one width per input
pair, the `i`-th output is exactly `calc_width` of the `i`-th point and
normal, and a scheduled (arbitrary-order) evaluation stores the very same
value in every computed slot — the result does not depend on the evaluation
order of the individual calls. -/
theorem calc_widths_pointwise (points normals : List Vec3) (tree : AABBTree)
    (cfg : RaysConfig) (hlen : points.length = normals.length) :
    (calc_widths points normals tree cfg).length = points.length ∧
    (∀ i, i < points.length →
      (calc_widths points normals tree cfg).getD i 0 =
        calc_width (points.getD i vzero) (normals.getD i vzero) tree cfg) ∧
    (∀ (sched : List ℕ) (i : ℕ), i ∈ sched →
      calc_widths_sched sched points normals tree cfg i =
        calc_width (points.getD i vzero) (normals.getD i vzero) tree cfg) := by
  refine ⟨?_, ?_, ?_⟩
  · unfold calc_widths
    rw [List.length_zipWith, hlen, Nat.min_self]
  · intro i hi
    exact getD_zipWith _ vzero vzero 0 points normals i hlen hi
  · intro sched i hi
    exact sched_foldl_mem points normals tree cfg sched _ i hi

/-- C3 witness: instantiated at a one-point input over an index against
which every ray misses. -/
theorem calc_widths_pointwise_witness :
    ([vzero] : List Vec3).length = ([⟨0, 0, 1⟩] : List Vec3).length ∧
    ((calc_widths [vzero] [⟨0, 0, 1⟩] ⟨fun _ _ => none⟩ {}).length = 1 ∧
      (∀ i, i < ([vzero] : List Vec3).length →
        (calc_widths [vzero] [⟨0, 0, 1⟩] ⟨fun _ _ => none⟩ {}).getD i 0 =
          calc_width (([vzero] : List Vec3).getD i vzero)
            (([⟨0, 0, 1⟩] : List Vec3).getD i vzero) ⟨fun _ _ => none⟩ {}) ∧
      (∀ (sched : List ℕ) (i : ℕ), i ∈ sched →
        calc_widths_sched sched [vzero] [⟨0, 0, 1⟩] ⟨fun _ _ => none⟩ {} i =
          calc_width (([vzero] : List Vec3).getD i vzero)
            (([⟨0, 0, 1⟩] : List Vec3).getD i vzero) ⟨fun _ _ => none⟩ {})) :=
  ⟨rfl, calc_widths_pointwise [vzero] [⟨0, 0, 1⟩] ⟨fun _ _ => none⟩ {} rfl⟩

lemma width_to_radius_mem (cfg : SampleConfig)
    (hr : cfg.min_radius ≤ cfg.max_radius) (w : ℝ) :
    cfg.min_radius ≤ width_to_radius cfg w ∧
    width_to_radius cfg w ≤ cfg.max_radius := by
  unfold width_to_radius
  constructor
  · exact le_min hr (le_max_left _ _)
  · exact min_le_left _ _

/-- C8: under a well-formed radius range, every candidate produced by
`generate_support_points` originates from some vertex/width pair whose
normal is not within `normal_z_max` of the up axis, carries exactly the
clamped linear width-to-radius mapping of that vertex's width, and hence
its radius lies in `[min_radius, max_radius]`. -/
theorem generate_support_points_radii (vertices : List VertexInfo)
    (widths : List ℝ) (cfg : SampleConfig) (rng : ℕ → Vec3)
    (hr : cfg.min_radius ≤ cfg.max_radius) :
    ∀ pr ∈ generate_support_points vertices widths cfg rng,
      (∃ vw ∈ vertices.zip widths,
        vw.1.normal.z ≤ cfg.normal_z_max ∧
        pr.radius = width_to_radius cfg vw.2) ∧
      cfg.min_radius ≤ pr.radius ∧ pr.radius ≤ cfg.max_radius := by
  intro pr hpr
  unfold generate_support_points at hpr
  rcases List.mem_flatMap.mp hpr with ⟨vw, hvw, hmem⟩
  unfold vertex_samples at hmem
  by_cases hz : cfg.normal_z_max < vw.1.normal.z
  · rw [if_pos hz] at hmem
    cases hmem
  · rw [if_neg hz] at hmem
    rcases List.mem_map.mp hmem with ⟨k, _, hk⟩
    have hrad : pr.radius = width_to_radius cfg vw.2 := by
      rw [← hk]
    rcases width_to_radius_mem cfg hr vw.2 with ⟨h1, h2⟩
    exact ⟨⟨vw, hvw, not_lt.mp hz, hrad⟩, hrad ▸ h1, hrad ▸ h2⟩

/-- C8 witness: instantiated at one side-facing vertex of unit area with
width `0.5` under the default sample config. -/
theorem generate_support_points_radii_witness :
    ({} : SampleConfig).min_radius ≤ ({} : SampleConfig).max_radius ∧
    (∀ pr ∈ generate_support_points [⟨vzero, ⟨1, 0, 0⟩, 1⟩] [0.5] {}
        (fun _ => vzero),
      (∃ vw ∈ ([⟨vzero, ⟨1, 0, 0⟩, 1⟩] : List VertexInfo).zip [(0.5 : ℝ)],
        vw.1.normal.z ≤ ({} : SampleConfig).normal_z_max ∧
        pr.radius = width_to_radius {} vw.2) ∧
      ({} : SampleConfig).min_radius ≤ pr.radius ∧
      pr.radius ≤ ({} : SampleConfig).max_radius) :=
  ⟨by norm_num [SampleConfig.min_radius, SampleConfig.max_radius],
    generate_support_points_radii [⟨vzero, ⟨1, 0, 0⟩, 1⟩] [0.5] {}
      (fun _ => vzero)
      (by norm_num [SampleConfig.min_radius, SampleConfig.max_radius])⟩

lemma poisson_no_conflict :
    ∀ (samples grid : List PointRadius),
      ∀ s ∈ poisson_sphere_from_samples grid samples,
        ∀ g ∈ grid, ¬ conflicts g s := by
  intro samples
  induction samples with
  | nil => intro grid s hs; cases hs
  | cons a rest ih =>
      intro grid s hs
      unfold poisson_sphere_from_samples at hs
      by_cases hc : ∃ g ∈ grid, conflicts g a
      · rw [if_pos hc] at hs
        exact ih grid s hs
      · rw [if_neg hc] at hs
        rcases List.mem_cons.mp hs with rfl | hs'
        · intro g hg hcon
          exact hc ⟨g, hg, hcon⟩
        · intro g hg
          exact ih (a :: grid) s hs' g (List.mem_cons_of_mem a hg)

/-- C1 amended: what the thinner actually guarantees.  Every surviving
sample is free of conflict with every pre-existing grid point, and the
surviving samples are pairwise conflict-free (earlier survivor against
later): for each such pair, either the distance exceeds the later point's
own query radius, or it is at least the radius sum. -/
theorem poisson_thinning_invariant (grid samples : List PointRadius) :
    (∀ s ∈ poisson_sphere_from_samples grid samples,
      ∀ g ∈ grid, ¬ conflicts g s) ∧
    (poisson_sphere_from_samples grid samples).Pairwise
      fun a b => ¬ conflicts a b := by
  constructor
  · exact poisson_no_conflict samples grid
  · induction samples generalizing grid with
    | nil => exact List.Pairwise.nil
    | cons a rest ih =>
        show (poisson_sphere_from_samples grid (a :: rest)).Pairwise _
        unfold poisson_sphere_from_samples
        by_cases hc : ∃ g ∈ grid, conflicts g a
        · rw [if_pos hc]
          exact ih grid
        · rw [if_neg hc]
          refine List.Pairwise.cons ?_ (ih (a :: grid))
          intro b hb
          exact poisson_no_conflict rest (a :: grid) b hb a
            (List.mem_cons_self a grid)

lemma dist_c1samples : dist3 c1sampleA.point c1sampleB.point = 2 := by
  show Real.sqrt (((0 : ℝ) - 2) ^ 2 + ((0 : ℝ) - 0) ^ 2 + ((0 : ℝ) - 0) ^ 2) = 2
  rw [show ((0 : ℝ) - 2) ^ 2 + ((0 : ℝ) - 0) ^ 2 + ((0 : ℝ) - 0) ^ 2 =
    2 ^ 2 by norm_num]
  exact Real.sqrt_sq (by norm_num)

lemma c1_thin_eval :
    poisson_sphere_from_samples [] [c1sampleA, c1sampleB] =
      [c1sampleA, c1sampleB] := by
  have h1 : ¬ ∃ g ∈ ([] : List PointRadius), conflicts g c1sampleA := by
    simp
  have h2 : ¬ ∃ g ∈ [c1sampleA], conflicts g c1sampleB := by
    intro h
    rcases h with ⟨g, hg, hcon⟩
    rcases List.mem_singleton.mp hg with rfl
    have hd := hcon.1
    rw [dist_c1samples] at hd
    have : c1sampleB.radius = 1 := rfl
    rw [this] at hd
    norm_num at hd
  show (if ∃ g ∈ ([] : List PointRadius), conflicts g c1sampleA then
      poisson_sphere_from_samples [] [c1sampleB]
    else c1sampleA :: poisson_sphere_from_samples [c1sampleA] [c1sampleB]) =
      [c1sampleA, c1sampleB]
  rw [if_neg h1]
  show c1sampleA :: (if ∃ g ∈ [c1sampleA], conflicts g c1sampleB then
      poisson_sphere_from_samples [c1sampleA] []
    else c1sampleB :: poisson_sphere_from_samples [c1sampleB, c1sampleA] []) =
      [c1sampleA, c1sampleB]
  rw [if_neg h2]
  rfl

/-- C1 counterexample: the thinner queries the grid only within the
candidate's own radius, so a previously accepted large-radius point outside
that query radius is never tested.  With an empty pre-existing grid, both
samples above survive although their distance (2) is smaller than the sum
of their radii (4) — the radius-sum separation invariant of the claim is
violated by the surviving output. -/
theorem poisson_separation_counterexample :
    poisson_sphere_from_samples [] [c1sampleA, c1sampleB] =
      [c1sampleA, c1sampleB] ∧
    c1sampleA ∈ poisson_sphere_from_samples [] [c1sampleA, c1sampleB] ∧
    c1sampleB ∈ poisson_sphere_from_samples [] [c1sampleA, c1sampleB] ∧
    dist3 c1sampleA.point c1sampleB.point <
      c1sampleA.radius + c1sampleB.radius := by
  refine ⟨c1_thin_eval, ?_, ?_, ?_⟩
  · rw [c1_thin_eval]
    exact List.mem_cons_self _ _
  · rw [c1_thin_eval]
    exact List.mem_cons_of_mem _ (List.mem_cons_self _ _)
  · rw [dist_c1samples]
    show (2 : ℝ) < 3 + 1
    norm_num

lemma dist_c1grid : dist3 c1gridPoint.point c1accepted.point = 5 := by
  show Real.sqrt (((0 : ℝ) - 5) ^ 2 + ((0 : ℝ) - 0) ^ 2 + ((0 : ℝ) - 0) ^ 2) = 5
  rw [show ((0 : ℝ) - 5) ^ 2 + ((0 : ℝ) - 0) ^ 2 + ((0 : ℝ) - 0) ^ 2 =
    5 ^ 2 by norm_num]
  exact Real.sqrt_sq (by norm_num)

lemma c1_witness_eval :
    poisson_sphere_from_samples [c1gridPoint] [c1accepted] = [c1accepted] := by
  have h : ¬ ∃ g ∈ [c1gridPoint], conflicts g c1accepted := by
    intro hex
    rcases hex with ⟨g, hg, hcon⟩
    rcases List.mem_singleton.mp hg with rfl
    have hd := hcon.1
    rw [dist_c1grid] at hd
    have : c1accepted.radius = 1 := rfl
    rw [this] at hd
    norm_num at hd
  show (if ∃ g ∈ [c1gridPoint], conflicts g c1accepted then
      poisson_sphere_from_samples [c1gridPoint] []
    else c1accepted ::
      poisson_sphere_from_samples [c1accepted, c1gridPoint] []) = [c1accepted]
  rw [if_neg h]
  rfl

/-- C1 witness: the amended invariant applied at a concrete accepted
sample against a concrete pre-existing grid point. -/
theorem poisson_thinning_invariant_witness :
    c1accepted ∈ poisson_sphere_from_samples [c1gridPoint] [c1accepted] ∧
    ¬ conflicts c1gridPoint c1accepted :=
  ⟨by rw [c1_witness_eval]; exact List.mem_cons_self _ _,
    (poisson_thinning_invariant [c1gridPoint] [c1accepted]).1 c1accepted
      (by rw [c1_witness_eval]; exact List.mem_cons_self _ _) c1gridPoint
      (List.mem_cons_self _ _)⟩

lemma midpoint3_self (p : Vec3) : midpoint3 p p = p := by
  cases p
  unfold midpoint3
  simp only [Vec3.mk.injEq]
  refine ⟨by ring, by ring, by ring⟩

lemma midpoint3_comm (p q : Vec3) : midpoint3 p q = midpoint3 q p := by
  unfold midpoint3
  simp only [Vec3.mk.injEq]
  refine ⟨by ring, by ring, by ring⟩

lemma real_sqrt_quarter {s : ℝ} (hs : 0 ≤ s) :
    Real.sqrt (s / 4) = Real.sqrt s / 2 := by
  rw [Real.sqrt_div hs, show Real.sqrt 4 = 2 by
    rw [show (4 : ℝ) = 2 ^ 2 by norm_num]
    exact Real.sqrt_sq (by norm_num)]

lemma dist3_comm (p q : Vec3) : dist3 p q = dist3 q p := by
  unfold dist3 norm3 vsub
  rw [show (p.x - q.x) ^ 2 + (p.y - q.y) ^ 2 + (p.z - q.z) ^ 2 =
    (q.x - p.x) ^ 2 + (q.y - p.y) ^ 2 + (q.z - p.z) ^ 2 by ring]

lemma dist3_nonneg (p q : Vec3) : 0 ≤ dist3 p q := Real.sqrt_nonneg _

lemma dist3_midpoint (p q r : Vec3) :
    dist3 (midpoint3 p q) (midpoint3 p r) = dist3 q r / 2 := by
  unfold dist3 norm3 vsub midpoint3
  rw [show ((p.x + q.x) / 2 - (p.x + r.x) / 2) ^ 2 +
      ((p.y + q.y) / 2 - (p.y + r.y) / 2) ^ 2 +
      ((p.z + q.z) / 2 - (p.z + r.z) / 2) ^ 2 =
      ((q.x - r.x) ^ 2 + (q.y - r.y) ^ 2 + (q.z - r.z) ^ 2) / 4 by ring]
  exact real_sqrt_quarter (by positivity)

lemma dist3_vertex_midpoint (p q : Vec3) :
    dist3 p (midpoint3 p q) = dist3 p q / 2 := by
  have h := dist3_midpoint p p q
  rwa [midpoint3_self] at h

lemma dist3_midpoint_vertex (p q : Vec3) :
    dist3 (midpoint3 p q) q = dist3 p q / 2 := by
  have h := dist3_midpoint q p q
  rwa [midpoint3_self, ← midpoint3_comm p q] at h

lemma maxSide_split4 {t t' : Tri} (ht' : t' ∈ split4 t) :
    maxSide t' ≤ maxSide t / 2 := by
  have hab : dist3 t.a t.b ≤ maxSide t := le_max_left _ _
  have hbc : dist3 t.b t.c ≤ maxSide t :=
    (le_max_left _ _).trans (le_max_right _ _)
  have hca : dist3 t.c t.a ≤ maxSide t :=
    (le_max_right _ _).trans (le_max_right _ _)
  unfold split4 at ht'
  simp only [List.mem_cons, List.not_mem_nil, or_false] at ht'
  rcases ht' with rfl | rfl | rfl | rfl
  · refine max_le ?_ (max_le ?_ ?_)
    · show dist3 t.a (midpoint3 t.a t.b) ≤ maxSide t / 2
      rw [dist3_vertex_midpoint]
      linarith
    · show dist3 (midpoint3 t.a t.b) (midpoint3 t.c t.a) ≤ maxSide t / 2
      rw [midpoint3_comm t.c t.a, dist3_midpoint]
      linarith
    · show dist3 (midpoint3 t.c t.a) t.a ≤ maxSide t / 2
      rw [dist3_midpoint_vertex]
      linarith
  · refine max_le ?_ (max_le ?_ ?_)
    · show dist3 (midpoint3 t.a t.b) t.b ≤ maxSide t / 2
      rw [dist3_midpoint_vertex]
      linarith
    · show dist3 t.b (midpoint3 t.b t.c) ≤ maxSide t / 2
      rw [dist3_vertex_midpoint]
      linarith
    · show dist3 (midpoint3 t.b t.c) (midpoint3 t.a t.b) ≤ maxSide t / 2
      rw [midpoint3_comm t.a t.b, dist3_midpoint]
      linarith
  · refine max_le ?_ (max_le ?_ ?_)
    · show dist3 (midpoint3 t.c t.a) (midpoint3 t.b t.c) ≤ maxSide t / 2
      rw [midpoint3_comm t.b t.c, dist3_midpoint]
      linarith
    · show dist3 (midpoint3 t.b t.c) t.c ≤ maxSide t / 2
      rw [dist3_midpoint_vertex]
      linarith
    · show dist3 t.c (midpoint3 t.c t.a) ≤ maxSide t / 2
      rw [dist3_vertex_midpoint]
      linarith
  · refine max_le ?_ (max_le ?_ ?_)
    · show dist3 (midpoint3 t.a t.b) (midpoint3 t.b t.c) ≤ maxSide t / 2
      rw [midpoint3_comm t.a t.b, dist3_midpoint, dist3_comm]
      linarith
    · show dist3 (midpoint3 t.b t.c) (midpoint3 t.c t.a) ≤ maxSide t / 2
      rw [midpoint3_comm t.b t.c, dist3_midpoint, dist3_comm]
      linarith
    · show dist3 (midpoint3 t.c t.a) (midpoint3 t.a t.b) ≤ maxSide t / 2
      rw [midpoint3_comm t.c t.a, dist3_midpoint, dist3_comm]
      linarith

lemma subTriAux_bound (L : ℝ) :
    ∀ (f : ℕ) (t : Tri), maxSide t ≤ 2 ^ f * L →
      ∀ t' ∈ subTriAux L f t, maxSide t' ≤ L := by
  intro f
  induction f with
  | zero =>
      intro t ht t' ht'
      have : t' = t := by simpa [subTriAux] using ht'
      subst this
      simpa using ht
  | succ f ih =>
      intro t ht t' ht'
      unfold subTriAux at ht'
      by_cases hle : maxSide t ≤ L
      · rw [if_pos hle] at ht'
        have : t' = t := by simpa using ht'
        subst this
        exact hle
      · rw [if_neg hle] at ht'
        rcases List.mem_flatMap.mp ht' with ⟨u, hu, hmem⟩
        refine ih u ?_ t' hmem
        have h1 : maxSide u ≤ maxSide t / 2 := maxSide_split4 hu
        have h2 : maxSide t ≤ 2 ^ f * 2 * L := by
          rw [← pow_succ]
          exact ht
        linarith

lemma maxSide_le_fuel_bound {L : ℝ} (hL : 0 < L) (t : Tri) :
    maxSide t ≤ 2 ^ Nat.ceil (maxSide t / L) * L := by
  have h1 : maxSide t / L ≤ (Nat.ceil (maxSide t / L) : ℝ) := Nat.le_ceil _
  have h2 : ((Nat.ceil (maxSide t / L) : ℕ) : ℝ) ≤
      2 ^ (Nat.ceil (maxSide t / L)) := by
    exact_mod_cast (Nat.lt_two_pow (Nat.ceil (maxSide t / L))).le
  have h3 : maxSide t ≤ (Nat.ceil (maxSide t / L) : ℝ) * L := by
    rw [div_le_iff₀ hL] at h1
    linarith
  calc maxSide t ≤ (Nat.ceil (maxSide t / L) : ℝ) * L := h3
    _ ≤ 2 ^ (Nat.ceil (maxSide t / L)) * L :=
        mul_le_mul_of_nonneg_right h2 hL.le

/-- C7: for every input mesh and positive bound, the mesh returned by
`subdivide` contains no triangle edge longer than the bound (the splitting
terminates: the explicit recursion bound suffices to reach that state). -/
theorem subdivide_bounds_edges (its : List Tri) (L : ℝ) (hL : 0 < L) :
    ∀ t' ∈ subdivide its L,
      dist3 t'.a t'.b ≤ L ∧ dist3 t'.b t'.c ≤ L ∧ dist3 t'.c t'.a ≤ L := by
  intro t' ht'
  unfold subdivide subdivide_triangle at ht'
  rcases List.mem_flatMap.mp ht' with ⟨t, _, hmem⟩
  have h := subTriAux_bound L (Nat.ceil (maxSide t / L)) t
    (maxSide_le_fuel_bound hL t) t' hmem
  unfold maxSide at h
  exact ⟨(le_max_left _ _).trans h,
    ((le_max_left _ _).trans (le_max_right _ _)).trans h,
    ((le_max_right _ _).trans (le_max_right _ _)).trans h⟩

/-- C7 witness: subdividing a right triangle with legs of length 3 with
bound 1 leaves no edge longer than 1. -/
theorem subdivide_bounds_edges_witness :
    (0 : ℝ) < 1 ∧
    (∀ t' ∈ subdivide [⟨⟨0, 0, 0⟩, ⟨3, 0, 0⟩, ⟨0, 3, 0⟩⟩] 1,
      dist3 t'.a t'.b ≤ 1 ∧ dist3 t'.b t'.c ≤ 1 ∧ dist3 t'.c t'.a ≤ 1) :=
  ⟨by norm_num,
    subdivide_bounds_edges [⟨⟨0, 0, 0⟩, ⟨3, 0, 0⟩, ⟨0, 3, 0⟩⟩] 1 (by norm_num)⟩

end
